import Mathlib

/-!
Verification of the dependency-graph model and change-impact analysis engine
of the syncrup server repository. Shallow embedding of:

* GraphService (GraphService.ts): node/edge store, load/save/addNode/addEdge/
  clear/removeNodesByRepoId. The JavaScript Map keyed by node id is modelled
  as an insertion-ordered association list; the persisted graph file is
  modelled as a component of the service state (`graphFile`), with the result
  of reading and JSON-parsing the file on construction supplied as a
  `DiskFile` value (JSON.parse is an external builtin; its outcome on a given
  file is modelled by an `Except`).

* ImpactAnalyzer (ImpactAnalyzer.ts): node resolution, the reverse-dependency
  BFS walker, the semantic usage scanner, merge/dedup, non-breaking
  short-circuit, severity table. The external AI classifier call is modelled
  by its parsed outcome (`Option AIParsed`; `none` covers a thrown call or a
  response with no JSON object). The on-disk repository checkout read by the
  scanner is modelled by a function from the joined relative path to an
  optional file content (POSIX separators, the constant working directory
  prefix dropped). The while-loop of the walker is modelled with explicit
  fuel; sufficiency of the chosen fuel is proved, which is the termination
  theorem for the loop.
-/

namespace Syncrup

inductive NodeType
  | FILE | FUNCTION | API | COMPONENT
deriving DecidableEq, Repr

inductive EdgeType
  | IMPORTS | CALLS | DEFINES | EXPOSES | USED_BY
deriving DecidableEq, Repr

/-- Open metadata map on a node; the only field the core reads is
`metadata.repoId` (in removeNodesByRepoId), so the map is modelled by that
field, itself optional since the map may lack it. -/
structure NodeMeta where
  repoId : Option String
deriving DecidableEq, Repr

structure GraphNode where
  id : String
  type : NodeType
  label : String
  metadata : Option NodeMeta
deriving DecidableEq, Repr

structure GraphEdge where
  source : String
  target : String
  type : EdgeType
deriving DecidableEq, Repr

structure GraphData where
  nodes : List GraphNode
  edges : List GraphEdge
deriving DecidableEq, Repr

/-! JavaScript Map semantics, modelled on insertion-ordered association
lists: `set` on an existing key replaces the value in place (keeping the
original position); `set` on a new key appends. -/

def mapSet {α : Type} (m : List (String × α)) (k : String) (v : α) :
    List (String × α) :=
  if m.any (fun p => p.1 == k) then
    m.map (fun p => if p.1 == k then (k, v) else p)
  else
    m ++ [(k, v)]

def mapFromList {α : Type} (l : List (String × α)) : List (String × α) :=
  l.foldl (fun m p => mapSet m p.1 p.2) []

/-- Result of reading this.graphFile at construction time: the file may be
missing, or present with a JSON.parse outcome (ok data, or a thrown parse or
shape error carried as a message). -/
inductive DiskFile
  | missing
  | file (parsed : Except String GraphData)

structure GraphServiceState where
  nodes : List (String × GraphNode)
  edges : List GraphEdge
  /-- Content of the persisted graph document (`none` = file absent). -/
  graphFile : Option GraphData
deriving DecidableEq

namespace GraphService

/-- Embedding of the constructor plus `load()`. A missing file leaves the
maps empty (only the data directory is created); a present file is parsed by
JSON.parse and its nodes poured into the Map — an unparsable or malformed
file makes the parse throw, and `load` has no catch, so the error
propagates out of the constructor. -/
def load (disk : DiskFile) : Except String GraphServiceState :=
  match disk with
  | .missing => .ok { nodes := [], edges := [], graphFile := none }
  | .file (.ok data) =>
      .ok { nodes := mapFromList (data.nodes.map (fun n => (n.id, n)))
            edges := data.edges
            graphFile := some data }
  | .file (.error e) => .error e

def getGraph (s : GraphServiceState) : GraphData :=
  { nodes := s.nodes.map (fun p => p.2), edges := s.edges }

/-- Embedding of `save()`: writes the full in-memory snapshot to the file. -/
def save (s : GraphServiceState) : GraphServiceState :=
  { s with graphFile := some (getGraph s) }

def addNode (s : GraphServiceState) (node : GraphNode) : GraphServiceState :=
  if s.nodes.any (fun p => p.1 == node.id) then s
  else { s with nodes := s.nodes ++ [(node.id, node)] }

def addEdge (s : GraphServiceState) (edge : GraphEdge) : GraphServiceState :=
  if s.edges.any (fun e =>
      e.source == edge.source && e.target == edge.target && e.type == edge.type) then
    s
  else { s with edges := s.edges ++ [edge] }

def clear (s : GraphServiceState) : GraphServiceState :=
  save { s with nodes := [], edges := [] }

def metaRepoMatches (m : Option NodeMeta) (repoId : String) : Bool :=
  match m with
  | some mm => mm.repoId == some repoId
  | none => false

def removeNodesByRepoId (s : GraphServiceState) (repoId : String) :
    GraphServiceState :=
  let nodesToRemove :=
    ((s.nodes.map (fun p => p.2)).filter
      (fun node => metaRepoMatches node.metadata repoId)).map (fun n => n.id)
  let nodes := s.nodes.filter (fun p => !(nodesToRemove.contains p.1))
  let edges := s.edges.filter (fun e =>
    !(nodesToRemove.contains e.source) && !(nodesToRemove.contains e.target))
  save { s with nodes := nodes, edges := edges }

end GraphService

/-! String primitives of the JavaScript code, re-implemented structurally
on the character list so that they evaluate inside the kernel. The regex
replaces in the source are all single-character substitutions, `split` is
used with single-character separators, and inputs are ASCII, for which
`Char.toLower` and `Char.isWhitespace` agree with the JavaScript
behaviour. -/

/-- JavaScript `s.replace(/x/g, y)` for single characters x and y. -/
def jsReplaceChar (cFrom cTo : Char) (s : String) : String :=
  String.mk (s.data.map (fun c => if c == cFrom then cTo else c))

/-- JavaScript `s.toLowerCase()` (ASCII). -/
def jsToLower (s : String) : String :=
  String.mk (s.data.map Char.toLower)

def jsSplitAux (sep : Char) : List Char → List Char → List String
  | [], cur => [String.mk cur.reverse]
  | c :: rest, cur =>
      if c == sep then String.mk cur.reverse :: jsSplitAux sep rest []
      else jsSplitAux sep rest (c :: cur)

/-- JavaScript `s.split(sep)` for a single-character separator. -/
def jsSplit (sep : Char) (s : String) : List String :=
  jsSplitAux sep s.data []

/-- JavaScript `parts.join(sep)`. -/
def jsJoin (sep : String) : List String → String
  | [] => ""
  | h :: t => t.foldl (fun acc x => acc ++ sep ++ x) h

/-- JavaScript `s.startsWith(pre)`. -/
def jsStartsWith (s pre : String) : Bool :=
  pre.data.isPrefixOf s.data

/-- JavaScript `s.endsWith(suf)`. -/
def jsEndsWith (s suf : String) : Bool :=
  suf.data.isSuffixOf s.data

/-- JavaScript `s.trim()` (ASCII whitespace). -/
def jsTrim (s : String) : String :=
  String.mk (((s.data.dropWhile Char.isWhitespace).reverse.dropWhile
    Char.isWhitespace).reverse)

inductive Severity
  | LOW | MEDIUM | HIGH | CRITICAL
deriving DecidableEq, Repr

structure AffectedFile where
  repoId : String
  filePath : String
  reason : String
  context : Option String
deriving DecidableEq, Repr

structure ImpactResult where
  projectId : String
  changedFile : String
  changedRepo : String
  affectedFiles : List AffectedFile
  diff : Option (String × String)
  isBreaking : Bool
  severity : Severity
  explanation : String
  timestamp : String
deriving DecidableEq, Repr

/-- Parsed JSON object extracted from the classifier response; each field is
optional because the response object may omit it. A failed call, or a
response containing no JSON object, is modelled by `Option.none` at the use
site. -/
structure AIParsed where
  isBreaking : Option Bool
  explanation : Option String
  changedFunctions : Option (List String)

/-- JavaScript truthiness of an optional string: absent and empty are falsy. -/
def truthy : Option String → Bool
  | some s => !(s == "")
  | none => false

/-- JavaScript `s || d` for strings: the default is taken when s is empty. -/
def strOr (s d : String) : String :=
  if s == "" then d else s

/-- Embedding of `const [repoId, ...pathParts] = id.split(":")` with
`pathParts.join(":")`. -/
def splitNodeId (id : String) : String × String :=
  match jsSplit ':' id with
  | [] => ("", "")
  | r :: rest => (r, jsJoin ":" rest)

/-- Embedding of POSIX `path.basename`: trailing slashes are stripped, then
the part after the last slash is returned. -/
def basenameOf (p : String) : String :=
  let cs := p.toList
  let stripped := (cs.reverse.dropWhile (fun c => c == '/')).reverse
  if stripped.isEmpty then
    if cs.any (fun c => c == '/') then "/" else ""
  else
    String.mk ((stripped.reverse.takeWhile (fun c => !(c == '/'))).reverse)

namespace ImpactAnalyzer

def determineSeverity (affectedCount : Nat) (isBreaking : Bool) : Severity :=
  if isBreaking = true ∧ affectedCount > 5 then .CRITICAL
  else if isBreaking = true ∧ affectedCount > 0 then .HIGH
  else if affectedCount > 10 then .HIGH
  else if affectedCount > 5 then .MEDIUM
  else .LOW

def createEmptyResult (projectId repoId filePath now : String) : ImpactResult :=
  { projectId := projectId
    changedFile := filePath
    changedRepo := repoId
    affectedFiles := []
    diff := none
    isBreaking := false
    severity := .LOW
    explanation := "File not found in dependency graph"
    timestamp := now }

/-- Candidate node ids tried by the resolution step, in source order: the
path with backslashes normalized to forward slashes, the path as given, and
the path with forward slashes turned into backslashes. -/
def possibleNodeIds (repoId filePath : String) : List String :=
  [ repoId ++ ":" ++ (jsReplaceChar '\\' '/' filePath)
  , repoId ++ ":" ++ filePath
  , repoId ++ ":" ++ (jsReplaceChar '/' '\\' filePath) ]

/-- Embedding of the resolution loop: each candidate id is looked up in the
node array in turn and the first id with a matching node wins. -/
def findChangedNode (nodes : List GraphNode) : List String → Option String
  | [] => none
  | nodeId :: rest =>
      match nodes.find? (fun n => n.id == nodeId) with
      | some _ => some nodeId
      | none => findChangedNode nodes rest

/-! Reverse-dependency walker (`findAffectedFiles`). -/

/-- Condition under which a newly discovered node is reported: its repo
segment differs from the source repo. -/
def hitPred (sourceRepoId nodeId : String) : Bool :=
  !((splitNodeId nodeId).1 == sourceRepoId)

/-- Hit pushed by the walker for a discovered node. -/
def walkerHit (changedNodeId nodeId : String) : AffectedFile :=
  { repoId := (splitNodeId nodeId).1
    filePath := (splitNodeId nodeId).2
    reason := "Imports " ++ basenameOf changedNodeId
    context := none }

structure WalkState where
  queue : List String
  visited : List String
  affected : List AffectedFile
deriving DecidableEq

/-- Body of the inner `for (const edge of dependentEdges)` loop: an unseen
edge source is marked visited, enqueued, and reported when cross-repo. -/
def stepEdge (sourceRepoId changedNodeId : String) (st : WalkState)
    (e : GraphEdge) : WalkState :=
  if st.visited.contains e.source then st
  else
    { queue := st.queue ++ [e.source]
      visited := st.visited ++ [e.source]
      affected :=
        if hitPred sourceRepoId e.source then
          st.affected ++ [walkerHit changedNodeId e.source]
        else st.affected }

/-- Embedding of the `while (queue.length > 0)` loop, with explicit fuel.
Fuel exhaustion on a nonempty queue returns `none`; the fuel chosen by
`bfsRun` is proved sufficient below, which is the termination argument for
the source loop. -/
def bfsLoop (edges : List GraphEdge) (sourceRepoId changedNodeId : String) :
    Nat → WalkState → Option (List String × List AffectedFile)
  | 0, st => if st.queue.isEmpty then some (st.visited, st.affected) else none
  | fuel + 1, st =>
      match st.queue with
      | [] => some (st.visited, st.affected)
      | cur :: rest =>
          let dep := edges.filter
            (fun e => e.target == cur && e.type == EdgeType.IMPORTS)
          bfsLoop edges sourceRepoId changedNodeId fuel
            (dep.foldl (stepEdge sourceRepoId changedNodeId)
              { queue := rest, visited := st.visited, affected := st.affected })

def bfsRun (g : GraphData) (changedNodeId sourceRepoId : String) :
    Option (List String × List AffectedFile) :=
  bfsLoop g.edges sourceRepoId changedNodeId (g.edges.length + 1)
    { queue := [changedNodeId], visited := [changedNodeId], affected := [] }

def findAffectedFiles (g : GraphData) (changedNodeId sourceRepoId : String) :
    List AffectedFile :=
  match bfsRun g changedNodeId sourceRepoId with
  | some st => st.2
  | none => []

/-! Semantic usage scanner (`searchForAffectedFiles`). -/

/-- Test of the regex `/\.(ts|tsx|js|jsx)$/` against a node id. -/
def sourceExtMatch (id : String) : Bool :=
  jsEndsWith id ".ts" || jsEndsWith id ".tsx"
    || jsEndsWith id ".js" || jsEndsWith id ".jsx"

/-- Candidate files of the scan: FILE nodes of other repositories with a
source-code extension, in graph order. -/
def otherRepoFiles (g : GraphData) (sourceRepoId : String) : List GraphNode :=
  g.nodes.filter (fun n =>
    n.type == NodeType.FILE
      && !(jsStartsWith n.id sourceRepoId)
      && sourceExtMatch n.id)

/-- Character class `\w` of JavaScript regexes. -/
def isWordChar (c : Char) : Bool :=
  c.isAlpha || c.isDigit || c == '_'

/-- Occurrence test of the pattern the scanner builds for an identifier: the
escaped literal, with a leading boundary only when the identifier starts
with a word character and a trailing boundary only when it ends with one. -/
def regexTest (fn s : String) : Bool :=
  let f := fn.toList
  let l := s.toList
  let needPre := match f.head? with | some c => isWordChar c | none => false
  let needSuf := match f.getLast? with | some c => isWordChar c | none => false
  (List.range (l.length + 1)).any (fun p =>
    f.isPrefixOf (l.drop p)
      && (!needPre || p == 0 || !(isWordChar (l.getD (p - 1) ' ')))
      && (!needSuf || decide (l.length ≤ p + f.length)
            || !(isWordChar (l.getD (p + f.length) ' '))))

def usageString (fn : String) (i : Nat) : String :=
  fn ++ " (line " ++ toString (i + 1) ++ ")"

/-- Embedding of the line loop for one identifier: lines are tried from the
top; a matching line whose usage string is already recorded is passed over
without breaking, and the first matching line with a fresh usage string is
the one reported. -/
def firstNewLine (fn : String) (lines : List String) (added : List String) :
    Option Nat :=
  (List.range lines.length).find? (fun i =>
    regexTest fn (lines.getD i "") && !(added.contains (usageString fn i)))

/-- Context snippet around line i: two lines before and after, each prefixed
with a marker and its 1-based number. -/
def contextSnippet (lines : List String) (i : Nat) : String :=
  let startLine := i - 2
  let endLine := min (lines.length - 1) (i + 2)
  let seg := (lines.drop startLine).take (endLine + 1 - startLine)
  jsJoin "\n"
    (seg.enum.map (fun pr =>
      let originalLineNum := startLine + pr.1 + 1
      let marker := if originalLineNum == i + 1 then "> " else "  "
      marker ++ toString originalLineNum ++ ": " ++ pr.2))

/-- Per-file loop over the identifier list, threading the per-file usage set
and pushing at most one hit per identifier. -/
def scanFileFns (fileRepoId filePathStr content : String)
    (lines : List String) :
    List String → List String → List AffectedFile → List AffectedFile
  | [], _, acc => acc
  | fn :: rest, added, acc =>
      if regexTest fn content then
        match firstNewLine fn lines added with
        | some i =>
            scanFileFns fileRepoId filePathStr content lines rest
              (added ++ [usageString fn i])
              (acc ++ [{ repoId := fileRepoId
                         filePath := jsReplaceChar '\\' '/' filePathStr
                         reason := "Uses modified function: " ++ fn
                         context := some (contextSnippet lines i) }])
        | none => scanFileFns fileRepoId filePathStr content lines rest added acc
      else scanFileFns fileRepoId filePathStr content lines rest added acc

def scanFile (functionList : List String) (fileRepoId filePathStr content : String) :
    List AffectedFile :=
  scanFileFns fileRepoId filePathStr content (jsSplit '\n' content)
    functionList [] []

/-- Relative disk path of a candidate node under the working directory:
`repos/<repoId>/<path with separators normalized>` (POSIX separator). -/
def diskPath (fileRepoId filePathStr : String) : String :=
  "repos/" ++ fileRepoId ++ "/" ++ (jsReplaceChar '\\' '/' filePathStr)

/-- Main scanner loop over the capped candidate list. `processed` is the
`processedFiles` set of normalized ids; a candidate whose normalized id was
already processed is skipped. The second component of the result is a ghost
accumulator recording which candidate nodes reach the disk-access step; it
does not influence the hits. -/
def scanLoop (functionList : List String) (fsys : String → Option String) :
    List GraphNode → List String → List AffectedFile → List GraphNode →
    (List AffectedFile × List GraphNode)
  | [], _, acc, scanned => (acc, scanned)
  | file :: rest, processed, acc, scanned =>
      let normalizedId := jsToLower (jsReplaceChar '\\' '/' file.id)
      if processed.contains normalizedId then
        scanLoop functionList fsys rest processed acc scanned
      else
        let processed2 := processed ++ [normalizedId]
        let pieces := splitNodeId file.id
        let scanned2 := scanned ++ [file]
        match fsys (diskPath pieces.1 pieces.2) with
        | none => scanLoop functionList fsys rest processed2 acc scanned2
        | some content =>
            scanLoop functionList fsys rest processed2
              (acc ++ scanFile functionList pieces.1 pieces.2 content) scanned2

/-- Identifier filtering applied before the scan: trim, then keep strings
longer than 2 characters. -/
def functionListOf (changedFunctions : List String) : List String :=
  (changedFunctions.map (fun f => jsTrim f)).filter (fun f => f.length > 2)

/-- Embedding of `searchForAffectedFiles`, returning the hits together with
the ghost list of candidate nodes that reached the disk-access step. -/
def searchScan (g : GraphData) (sourceRepoId : String)
    (changedFunctions : List String) (fsys : String → Option String) :
    List AffectedFile × List GraphNode :=
  let functionList := functionListOf changedFunctions
  if functionList.length == 0 then ([], [])
  else scanLoop functionList fsys ((otherRepoFiles g sourceRepoId).take 500) [] [] []

def searchForAffectedFiles (g : GraphData) (sourceRepoId : String)
    (changedFunctions : List String) (fsys : String → Option String) :
    List AffectedFile :=
  (searchScan g sourceRepoId changedFunctions fsys).1

/-! Merge, dedup, policy, and the public operation. -/

/-- Normalized dedup key: repoId joined with the lower-cased, slash-normalized
file path. -/
def dedupKey (f : AffectedFile) : String :=
  f.repoId ++ ":" ++ (jsToLower (jsReplaceChar '\\' '/' f.filePath))

/-- Embedding of `Array.from(new Map(all.map(f => [key f, f])).values())`. -/
def dedupeHits (l : List AffectedFile) : List AffectedFile :=
  (mapFromList (l.map (fun f => (dedupKey f, f)))).map (fun p => p.2)

/-- Value of the local `isBreaking` after the classifier step. The call is
made only when both contents are truthy; `result.isBreaking || false`
defaults an absent field to false; a failed call or a response with no JSON
object leaves the initial false. -/
def classifierIsBreaking (oldContent newContent : Option String)
    (ai : Option AIParsed) : Bool :=
  if truthy oldContent && truthy newContent then
    match ai with
    | some r => r.isBreaking.getD false
    | none => false
  else false

/-- Value of the local `explanation` after the classifier step
(`result.explanation || "Analyzed by AI"`, initial value "File modified"). -/
def classifierExplanation (oldContent newContent : Option String)
    (ai : Option AIParsed) : String :=
  if truthy oldContent && truthy newContent then
    match ai with
    | some r =>
        match r.explanation with
        | some e => strOr e "Analyzed by AI"
        | none => "Analyzed by AI"
    | none => "File modified"
  else "File modified"

/-- Value of the local `changedFunctions` (`result.changedFunctions || []`;
a JavaScript array is truthy even when empty). -/
def classifierChangedFunctions (oldContent newContent : Option String)
    (ai : Option AIParsed) : List String :=
  if truthy oldContent && truthy newContent then
    match ai with
    | some r => r.changedFunctions.getD []
    | none => []
  else []

/-- Embedding of `analyzeFileChange`. `g` is the graph loaded for the
project, `fsys` the working-copy filesystem seen by the scanner, `ai` the
classifier outcome, and `now` the timestamp string. -/
def analyzeFileChange (g : GraphData) (fsys : String → Option String)
    (projectId repoId filePath : String)
    (oldContent newContent : Option String)
    (ai : Option AIParsed) (now : String) : ImpactResult :=
  match findChangedNode g.nodes (possibleNodeIds repoId filePath) with
  | none => createEmptyResult projectId repoId filePath now
  | some changedNodeId =>
      let graphAffectedFiles := findAffectedFiles g changedNodeId repoId
      let isBreaking := classifierIsBreaking oldContent newContent ai
      let explanation := classifierExplanation oldContent newContent ai
      let changedFunctions := classifierChangedFunctions oldContent newContent ai
      let semanticAffectedFiles :=
        if changedFunctions.length > 0 then
          searchForAffectedFiles g repoId changedFunctions fsys
        else []
      let allAffectedFiles := graphAffectedFiles ++ semanticAffectedFiles
      let uniqueAffectedFiles := dedupeHits allAffectedFiles
      if isBreaking = false then
        { projectId := projectId
          changedFile := filePath
          changedRepo := repoId
          affectedFiles := []
          diff := none
          isBreaking := isBreaking
          severity := .LOW
          explanation := strOr explanation "Non-breaking change detected"
          timestamp := now }
      else
        { projectId := projectId
          changedFile := filePath
          changedRepo := repoId
          affectedFiles := uniqueAffectedFiles
          diff :=
            if truthy oldContent && truthy newContent then
              some (oldContent.getD "", newContent.getD "")
            else none
          isBreaking := isBreaking
          severity := determineSeverity uniqueAffectedFiles.length isBreaking
          explanation := explanation
          timestamp := now }

/-! Spec-side notions for the walker: the reverse-dependency step relation,
its reflexive-transitive closure, the expected hit list of a visited set,
the loop invariant, and the count of not-yet-visited edge sources used as
the termination measure. -/

/-- One reverse-dependency step: some IMPORTS edge has target a and source b. -/
def revStep (edges : List GraphEdge) (a b : String) : Prop :=
  ∃ e, e ∈ edges ∧ e.type = EdgeType.IMPORTS ∧ e.target = a ∧ e.source = b

/-- Reachability along reverse IMPORTS edges. -/
def reachesRev (edges : List GraphEdge) (a b : String) : Prop :=
  Relation.ReflTransGen (revStep edges) a b

/-- Hits the walker owes a visited list: one per visited node other than the
start whose repo segment differs from the source repo, in visiting order. -/
def crossHits (changedNodeId sourceRepoId : String) (v : List String) :
    List AffectedFile :=
  (v.filter (fun x => !(x == changedNodeId) && hitPred sourceRepoId x)).map
    (walkerHit changedNodeId)

/-- Loop invariant of the walker. -/
def walkInv (edges : List GraphEdge) (sourceRepoId changedNodeId : String)
    (st : WalkState) : Prop :=
  st.visited.Nodup ∧
  changedNodeId ∈ st.visited ∧
  (∀ x ∈ st.queue, x ∈ st.visited) ∧
  (∀ x ∈ st.visited, reachesRev edges changedNodeId x) ∧
  (∀ x ∈ st.visited, x ∉ st.queue → ∀ y, revStep edges x y → y ∈ st.visited) ∧
  st.affected = crossHits changedNodeId sourceRepoId st.visited

/-- Number of edge sources not yet visited; the termination measure of the
walker together with the queue length. -/
def unvisitedCount (edges : List GraphEdge) (v : List String) : Nat :=
  (((edges.map (fun e => e.source)).toFinset) \ v.toFinset).card

end ImpactAnalyzer

/-! Spec-side helper: key list in order of first occurrence, used to state
the dedup characterization. -/

def firstOccKeys (ks : List String) : List String :=
  ks.foldl (fun acc k => if acc.contains k then acc else acc ++ [k]) []

/-- Spec-side helper for the scanner: keep, in order, the first node for
each normalized id (lower-cased, backslashes turned to slashes), skipping
nodes whose normalized id is in `seen` or occurred earlier. -/
def dedupByNormId : List GraphNode → List String → List GraphNode
  | [], _ => []
  | n :: rest, seen =>
      let k := jsToLower (jsReplaceChar '\\' '/' n.id)
      if seen.contains k then dedupByNormId rest seen
      else n :: dedupByNormId rest (k :: seen)

/-! Concrete fixtures used by counterexamples and witnesses. -/

def fixNode : GraphNode :=
  { id := "A:src/api.ts", type := .FILE, label := "api.ts"
    metadata := some { repoId := some "A" } }

def fixNodeDup : GraphNode :=
  { id := "A:src/api.ts", type := .FUNCTION, label := "other"
    metadata := none }

def fixState : GraphServiceState :=
  { nodes := [(fixNode.id, fixNode)], edges := [], graphFile := none }

def fixGraphW : GraphData :=
  { nodes :=
      [ { id := "A:src/api.ts", type := .FILE, label := "api", metadata := none }
      , { id := "A:mid.ts", type := .FILE, label := "mid", metadata := none }
      , { id := "B:client.ts", type := .FILE, label := "client", metadata := none } ]
    edges :=
      [ { source := "A:mid.ts", target := "A:src/api.ts", type := .IMPORTS }
      , { source := "B:client.ts", target := "A:mid.ts", type := .IMPORTS } ] }

def fixGraphC1 : GraphData :=
  { nodes :=
      [ { id := "A:f", type := .FILE, label := "f", metadata := none }
      , { id := "B:X", type := .FILE, label := "X", metadata := none }
      , { id := "B:x", type := .FILE, label := "x", metadata := none } ]
    edges :=
      [ { source := "B:X", target := "A:f", type := .IMPORTS }
      , { source := "B:x", target := "A:f", type := .IMPORTS } ] }

def fixGraph9 : GraphData :=
  { nodes :=
      [ { id := "B:a\\x.ts", type := .FILE, label := "", metadata := none }
      , { id := "B:a/x.ts", type := .FILE, label := "", metadata := none } ]
    edges := [] }

def fixAI (b : Bool) : AIParsed :=
  { isBreaking := some b, explanation := some "classified", changedFunctions := some [] }

def fixFs : String → Option String := fun _ => none

/-! ## Theorems -/

open ImpactAnalyzer

/-- Claim C4, counterexample. A persisted document on which JSON.parse
throws is not treated as the empty graph: the error propagates out of
construction, contradicting the claim that a corrupt document is likewise
treated as the empty graph rather than a fatal error. -/
theorem claim_C4_counterexample :
    GraphService.load (DiskFile.file (.error "SyntaxError: Unexpected token")) =
      .error "SyntaxError: Unexpected token" ∧
    GraphService.load (DiskFile.file (.error "SyntaxError: Unexpected token")) ≠
      .ok { nodes := [], edges := [], graphFile := none } := by
  refine ⟨rfl, ?_⟩
  intro h
  exact Except.noConfusion h

/-- Claim C4, amended: a missing persisted document yields the empty graph
and no error, but an unparsable or malformed persisted document makes
construction fail with the parse error instead of yielding the empty
graph. -/
theorem claim_C4 :
    GraphService.load DiskFile.missing =
      .ok { nodes := [], edges := [], graphFile := none } ∧
    (∀ msg : String,
      GraphService.load (DiskFile.file (.error msg)) = .error msg) := by
  exact ⟨rfl, fun _ => rfl⟩

/-- Claim C5, counterexample. Adding a node to a freshly constructed (empty,
no persisted file) service leaves the persisted document absent, so after
addNode returns the persisted document does not equal the in-memory state. -/
theorem claim_C5_counterexample :
    (GraphService.addNode { nodes := [], edges := [], graphFile := none }
        fixNode).graphFile ≠
      some (GraphService.getGraph
        (GraphService.addNode { nodes := [], edges := [], graphFile := none }
          fixNode)) := by
  decide

/-- Claim C5, amended: only removeNodesByRepoId and clear persist the whole
document (after them the persisted document equals the full in-memory
state); addNode and addEdge mutate memory only and leave the persisted
document unchanged. -/
theorem claim_C5 :
    ∀ (s : GraphServiceState) (n : GraphNode) (e : GraphEdge) (r : String),
      (GraphService.addNode s n).graphFile = s.graphFile ∧
      (GraphService.addEdge s e).graphFile = s.graphFile ∧
      (GraphService.removeNodesByRepoId s r).graphFile =
        some (GraphService.getGraph (GraphService.removeNodesByRepoId s r)) ∧
      (GraphService.clear s).graphFile =
        some (GraphService.getGraph (GraphService.clear s)) := by
  intro s n e r
  refine ⟨?_, ?_, rfl, rfl⟩
  · unfold GraphService.addNode
    split <;> rfl
  · unfold GraphService.addEdge
    split <;> rfl

/-- Claim C10: when the node id is already present as a key, addNode leaves
the whole service state unchanged (the stored node is kept as-is, edges are
untouched), and addNode preserves the uniqueness of node-id keys. -/
theorem claim_C10 :
    ∀ (s : GraphServiceState) (n : GraphNode),
      (s.nodes.any (fun p => p.1 == n.id) = true →
        GraphService.addNode s n = s) ∧
      ((s.nodes.map (fun p => p.1)).Nodup →
        ((GraphService.addNode s n).nodes.map (fun p => p.1)).Nodup) := by
  intro s n
  constructor
  · intro h
    unfold GraphService.addNode
    simp [h]
  · intro h
    unfold GraphService.addNode
    split
    · exact h
    · rename_i hany
      simp only [List.any_eq_true, Prod.exists, beq_iff_eq, not_exists] at hany
      push_neg at hany
      simp only [List.map_append, List.map_cons, List.map_nil]
      rw [List.nodup_append]
      refine ⟨h, List.nodup_singleton _, ?_⟩
      intro a ha hb
      simp only [List.mem_singleton] at hb
      subst hb
      rcases List.mem_map.mp ha with ⟨p, hp, hfst⟩
      exact hany p.1 p.2 (by simpa [Prod.mk.eta] using hp) (by simpa using hfst)

/-- Claim C10, witness: a duplicate insert at a concrete state is ignored,
and key uniqueness is preserved there. -/
theorem claim_C10_witness :
    GraphService.addNode fixState fixNodeDup = fixState ∧
    ((GraphService.addNode fixState fixNodeDup).nodes.map (fun p => p.1)).Nodup := by
  exact ⟨(claim_C10 fixState fixNodeDup).1 (by decide),
         (claim_C10 fixState fixNodeDup).2 (by decide)⟩

/-- Claim C6: determineSeverity implements the severity table with first
match winning; in particular breaking with 6 affected is CRITICAL, breaking
with 1 affected is HIGH, and breaking with 0 affected falls through every
greater-than row to LOW. -/
theorem claim_C6 :
    (∀ (n : Nat) (b : Bool),
      (determineSeverity n b = Severity.CRITICAL ↔ b = true ∧ 5 < n) ∧
      (determineSeverity n b = Severity.HIGH ↔
        ((b = true ∧ 0 < n ∧ n ≤ 5) ∨ (b = false ∧ 10 < n))) ∧
      (determineSeverity n b = Severity.MEDIUM ↔ (b = false ∧ 5 < n ∧ n ≤ 10)) ∧
      (determineSeverity n b = Severity.LOW ↔
        ((b = true ∧ n = 0) ∨ (b = false ∧ n ≤ 5)))) ∧
    determineSeverity 6 true = Severity.CRITICAL ∧
    determineSeverity 1 true = Severity.HIGH ∧
    determineSeverity 0 true = Severity.LOW := by
  refine ⟨?_, by decide, by decide, by decide⟩
  intro n b
  unfold determineSeverity
  cases b <;> split_ifs <;>
    refine ⟨?_, ?_, ?_, ?_⟩ <;> simp_all <;> omega

/-- Helper: the resolution loop picks the first candidate id that has a
matching node in the node array. -/
theorem findChangedNode_eq_find? (nodes : List GraphNode) :
    ∀ l : List String,
      findChangedNode nodes l =
        l.find? (fun nid => nodes.any (fun n => n.id == nid)) := by
  intro l
  induction l with
  | nil => rfl
  | cons nodeId rest ih =>
      unfold findChangedNode
      rw [List.find?_cons]
      cases hf : nodes.find? (fun n => n.id == nodeId) with
      | none =>
          have hany : nodes.any (fun n => n.id == nodeId) = false := by
            rw [List.any_eq_false]
            intro n hn
            have := List.find?_eq_none.mp hf n hn
            simpa using this
          simp [hany, ih]
      | some nd =>
          have hmem := List.find?_some hf
          have hmemn := List.mem_of_find?_eq_some hf
          have hany : nodes.any (fun n => n.id == nodeId) = true := by
            rw [List.any_eq_true]
            exact ⟨nd, hmemn, hmem⟩
          simp [hany]

/-- Claim C3: node resolution tries the three candidate ids in order
(slash-normalized, exact, backslashed), the first candidate present in the
node set wins, and when none match analyzeFileChange returns the defined
empty result (no hits, not breaking, LOW, explanation "File not found in
dependency graph") rather than an error. -/
theorem claim_C3 :
    ∀ (g : GraphData) (fsys : String → Option String)
      (projectId repoId filePath : String)
      (oldContent newContent : Option String)
      (ai : Option AIParsed) (now : String),
      possibleNodeIds repoId filePath =
        [ repoId ++ ":" ++ (jsReplaceChar '\\' '/' filePath)
        , repoId ++ ":" ++ filePath
        , repoId ++ ":" ++ (jsReplaceChar '/' '\\' filePath) ] ∧
      findChangedNode g.nodes (possibleNodeIds repoId filePath) =
        (possibleNodeIds repoId filePath).find?
          (fun nid => g.nodes.any (fun n => n.id == nid)) ∧
      (findChangedNode g.nodes (possibleNodeIds repoId filePath) = none →
        analyzeFileChange g fsys projectId repoId filePath
            oldContent newContent ai now =
          { projectId := projectId
            changedFile := filePath
            changedRepo := repoId
            affectedFiles := []
            diff := none
            isBreaking := false
            severity := Severity.LOW
            explanation := "File not found in dependency graph"
            timestamp := now }) := by
  intro g fsys projectId repoId filePath oldContent newContent ai now
  refine ⟨rfl, findChangedNode_eq_find? g.nodes _, ?_⟩
  intro hnone
  unfold analyzeFileChange
  rw [hnone]
  rfl

/-- Claim C3, witness: on the empty graph no candidate matches and the
empty result is returned. -/
theorem claim_C3_witness :
    analyzeFileChange { nodes := [], edges := [] } fixFs
        "p1" "A" "src/api.ts" none none none "t0" =
      { projectId := "p1"
        changedFile := "src/api.ts"
        changedRepo := "A"
        affectedFiles := []
        diff := none
        isBreaking := false
        severity := Severity.LOW
        explanation := "File not found in dependency graph"
        timestamp := "t0" } :=
  (claim_C3 { nodes := [], edges := [] } fixFs "p1" "A" "src/api.ts"
      none none none "t0").2.2 (by decide)

/-- Claim C2: whenever the classifier outcome is non-breaking — including
when the classifier was never called because old or new content is absent —
the returned result has no affected files and LOW severity, whatever the
walker and scanner produced. -/
theorem claim_C2 :
    ∀ (g : GraphData) (fsys : String → Option String)
      (projectId repoId filePath : String)
      (oldContent newContent : Option String)
      (ai : Option AIParsed) (now : String),
      classifierIsBreaking oldContent newContent ai = false →
      (analyzeFileChange g fsys projectId repoId filePath
          oldContent newContent ai now).affectedFiles = [] ∧
      (analyzeFileChange g fsys projectId repoId filePath
          oldContent newContent ai now).severity = Severity.LOW := by
  intro g fsys projectId repoId filePath oldContent newContent ai now h
  unfold analyzeFileChange
  cases hf : findChangedNode g.nodes (possibleNodeIds repoId filePath) with
  | none => exact ⟨rfl, rfl⟩
  | some changedNodeId => simp [h, createEmptyResult]

/-- Claim C2, witness: a graph with a live reverse-dependency edge still
yields no affected files and LOW severity when the classifier says
non-breaking. -/
theorem claim_C2_witness :
    classifierIsBreaking (some "old") (some "new") (some (fixAI false)) = false ∧
    (analyzeFileChange fixGraphW fixFs "p1" "A" "src/api.ts"
        (some "old") (some "new") (some (fixAI false)) "t0").affectedFiles = [] ∧
    (analyzeFileChange fixGraphW fixFs "p1" "A" "src/api.ts"
        (some "old") (some "new") (some (fixAI false)) "t0").severity =
      Severity.LOW :=
  ⟨by decide,
   claim_C2 fixGraphW fixFs "p1" "A" "src/api.ts"
     (some "old") (some "new") (some (fixAI false)) "t0" (by decide)⟩

/-! Helper lemmas for the dedup characterization (claim C1). -/

/-- Membership in the first-occurrence fold. -/
theorem foldFirstOcc_mem (k : String) :
    ∀ (ks acc : List String),
      (k ∈ ks.foldl
          (fun acc k => if acc.contains k then acc else acc ++ [k]) acc ↔
        k ∈ acc ∨ k ∈ ks) := by
  intro ks
  induction ks with
  | nil => intro acc; simp
  | cons a rest ih =>
      intro acc
      simp only [List.foldl_cons]
      cases hc : acc.contains a with
      | true =>
          have ha : a ∈ acc := by simpa using hc
          rw [if_pos rfl]
          rw [ih acc]
          constructor
          · rintro (h | h)
            · exact Or.inl h
            · exact Or.inr (List.mem_cons_of_mem a h)
          · rintro (h | h)
            · exact Or.inl h
            · rcases List.mem_cons.mp h with h | h
              · exact Or.inl (h ▸ ha)
              · exact Or.inr h
      | false =>
          rw [if_neg Bool.false_ne_true]
          rw [ih (acc ++ [a])]
          simp only [List.mem_append, List.mem_singleton, List.mem_cons]
          tauto

theorem firstOccKeys_mem (ks : List String) (k : String) :
    k ∈ firstOccKeys ks ↔ k ∈ ks := by
  unfold firstOccKeys
  rw [foldFirstOcc_mem]
  simp

theorem firstOccKeys_concat (ks : List String) (k : String) :
    firstOccKeys (ks ++ [k]) =
      if k ∈ ks then firstOccKeys ks else firstOccKeys ks ++ [k] := by
  unfold firstOccKeys
  rw [List.foldl_append]
  simp only [List.foldl_cons, List.foldl_nil]
  have hmem :
      (ks.foldl (fun acc k => if acc.contains k then acc else acc ++ [k]) []).contains k = true ↔
        k ∈ ks := by
    constructor
    · intro hc
      have : k ∈ ks.foldl (fun acc k => if acc.contains k then acc else acc ++ [k]) [] := by
        simpa using hc
      simpa using (foldFirstOcc_mem k ks []).mp this
    · intro hk
      have : k ∈ ks.foldl (fun acc k => if acc.contains k then acc else acc ++ [k]) [] :=
        (foldFirstOcc_mem k ks []).mpr (Or.inr hk)
      simpa using this
  by_cases h : k ∈ ks
  · rw [if_pos (hmem.mpr h), if_pos h]
  · rw [if_neg (fun hc => h (hmem.mp hc)), if_neg h]

/-- A key that occurs in the list has a last entry under that key. -/
theorem filter_fst_getLast?_of_mem {α : Type} (l : List (String × α)) (k : String)
    (h : k ∈ l.map Prod.fst) :
    ∃ q, (l.filter (fun p => p.1 == k)).getLast? = some q ∧ q.1 = k := by
  rcases List.mem_map.mp h with ⟨p0, hp0, hfst⟩
  have hmemf : p0 ∈ l.filter (fun p => p.1 == k) :=
    List.mem_filter.mpr ⟨hp0, by simp [hfst]⟩
  have hne : l.filter (fun p => p.1 == k) ≠ [] := List.ne_nil_of_mem hmemf
  have hsome : ((l.filter (fun p => p.1 == k)).getLast?).isSome = true :=
    List.getLast?_isSome.mpr hne
  rcases Option.isSome_iff_exists.mp hsome with ⟨q, hq⟩
  refine ⟨q, hq, ?_⟩
  have := List.mem_filter.mp (List.mem_of_getLast?_eq_some hq)
  simpa using this.2

/-- Every entry of the association map built by mapFromList is the last
entry of the input under its key, and its key occurs in the input. -/
theorem mem_mapFromList_spec {α : Type} (l : List (String × α)) (q : String × α)
    (hq : q ∈ (firstOccKeys (l.map Prod.fst)).filterMap
      (fun k => (l.filter (fun p => p.1 == k)).getLast?)) :
    q.1 ∈ l.map Prod.fst ∧
      (l.filter (fun p => p.1 == q.1)).getLast? = some q := by
  rcases List.mem_filterMap.mp hq with ⟨k0, hk0, hg⟩
  have hqmem := List.mem_filter.mp (List.mem_of_getLast?_eq_some hg)
  have hfst : q.1 = k0 := by simpa using hqmem.2
  subst hfst
  exact ⟨(firstOccKeys_mem _ _).mp hk0, hg⟩

/-- Characterization of the JavaScript Map construction: keys in order of
first occurrence, each mapped to the last entry with that key. -/
theorem mapFromList_eq {α : Type} (l : List (String × α)) :
    mapFromList l =
      (firstOccKeys (l.map Prod.fst)).filterMap
        (fun k => (l.filter (fun p => p.1 == k)).getLast?) := by
  induction l using List.reverseRecOn with
  | nil => rfl
  | append_singleton l p ih =>
      have hstep : mapFromList (l ++ [p]) = mapSet (mapFromList l) p.1 p.2 := by
        unfold mapFromList
        rw [List.foldl_append]
        rfl
      rw [hstep, ih]
      have hkeys : (l ++ [p]).map Prod.fst = l.map Prod.fst ++ [p.1] := by
        simp
      rw [hkeys, firstOccKeys_concat]
      by_cases hk : p.1 ∈ l.map Prod.fst
      · rw [if_pos hk]
        have hany :
            ((firstOccKeys (l.map Prod.fst)).filterMap
              (fun k => (l.filter (fun r => r.1 == k)).getLast?)).any
                (fun r => r.1 == p.1) = true := by
          rw [List.any_eq_true]
          rcases filter_fst_getLast?_of_mem l p.1 hk with ⟨q, hq, hqfst⟩
          refine ⟨q, ?_, by simp [hqfst]⟩
          exact List.mem_filterMap.mpr
            ⟨p.1, (firstOccKeys_mem _ _).mpr hk, hq⟩
        unfold mapSet
        rw [if_pos hany]
        rw [List.map_filterMap]
        apply List.filterMap_congr
        intro k0 hk0
        have hk0mem : k0 ∈ l.map Prod.fst := (firstOccKeys_mem _ _).mp hk0
        rw [List.filter_append]
        by_cases hkk : k0 = p.1
        · rcases filter_fst_getLast?_of_mem l k0 hk0mem with ⟨q, hq, hqfst⟩
          rw [hq]
          have hpfilter : [p].filter (fun r => r.1 == k0) = [p] := by
            simp [hkk]
          rw [hpfilter, List.getLast?_concat]
          simp [hqfst, hkk]
        · have hpfilter : [p].filter (fun r => r.1 == k0) = [] := by
            simp [Ne.symm hkk]
          rw [hpfilter, List.append_nil]
          cases hg : (l.filter (fun r => r.1 == k0)).getLast? with
          | none => simp
          | some q =>
              have hqmem := List.mem_filter.mp (List.mem_of_getLast?_eq_some hg)
              have hqfst : q.1 = k0 := by simpa using hqmem.2
              simp [hqfst, hkk]
      · rw [if_neg hk]
        have hany :
            ((firstOccKeys (l.map Prod.fst)).filterMap
              (fun k => (l.filter (fun r => r.1 == k)).getLast?)).any
                (fun r => r.1 == p.1) = false := by
          rw [List.any_eq_false]
          intro q hq
          have hspec := mem_mapFromList_spec l q hq
          intro hbeq
          have : q.1 = p.1 := by simpa using hbeq
          exact hk (this ▸ hspec.1)
        unfold mapSet
        rw [if_neg (fun hcontra => Bool.false_ne_true (hany ▸ hcontra))]
        rw [List.filterMap_append]
        congr 1
        · apply List.filterMap_congr
          intro k0 hk0
          have hk0mem : k0 ∈ l.map Prod.fst := (firstOccKeys_mem _ _).mp hk0
          have hkk : ¬ (p.1 = k0) := fun h => hk (h ▸ hk0mem)
          rw [List.filter_append]
          have hpfilter : [p].filter (fun r => r.1 == k0) = [] := by
            simp [hkk]
          rw [hpfilter, List.append_nil]
        · have hlfilter : l.filter (fun r => r.1 == p.1) = [] := by
            rw [List.filter_eq_nil_iff]
            intro r hr
            intro hbeq
            exact hk (List.mem_map.mpr ⟨r, hr, by simpa using hbeq⟩)
          simp [hlfilter]

/-- Claim C1, counterexample. The walker on this graph emits two hits that
share the normalized key (filePaths "X" and "x"): the merged sequence has
the "X" hit first, yet the result keeps the later "x" hit, so the first
occurrence is not the one kept. -/
theorem claim_C1_counterexample :
    findAffectedFiles fixGraphC1 "A:f" "A" =
      [ { repoId := "B", filePath := "X", reason := "Imports A:f", context := none }
      , { repoId := "B", filePath := "x", reason := "Imports A:f", context := none } ] ∧
    dedupKey { repoId := "B", filePath := "X", reason := "Imports A:f", context := none } =
      dedupKey { repoId := "B", filePath := "x", reason := "Imports A:f", context := none } ∧
    (analyzeFileChange fixGraphC1 fixFs "p1" "A" "f" (some "old") (some "new")
        (some (fixAI true)) "t0").affectedFiles =
      [ { repoId := "B", filePath := "x", reason := "Imports A:f", context := none } ] ∧
    ({ repoId := "B", filePath := "x", reason := "Imports A:f", context := none } :
        AffectedFile) ≠
      { repoId := "B", filePath := "X", reason := "Imports A:f", context := none } := by
  exact ⟨by decide, by decide, by decide, by decide⟩

/-- Claim C1, amended: the merged hit sequence is deduplicated by the
normalized key (repoId with the lower-cased, slash-normalized file path);
the kept entries sit in order of each key's first occurrence in the merged
sequence, but the entry kept for a key is the last occurrence with that
key, so a later duplicate (even with a different reason or context)
replaces the fields of the earlier one. -/
theorem claim_C1 :
    ∀ l : List AffectedFile,
      dedupeHits l =
        (firstOccKeys (l.map dedupKey)).filterMap
          (fun k => (l.filter (fun f => dedupKey f == k)).getLast?) := by
  intro l
  unfold dedupeHits
  rw [mapFromList_eq, List.map_filterMap]
  have hkeys : (l.map (fun f => (dedupKey f, f))).map Prod.fst = l.map dedupKey := by
    rw [List.map_map]; rfl
  rw [hkeys]
  apply List.filterMap_congr
  intro k _
  rw [List.filter_map]
  have hcomp :
      ((fun p : String × AffectedFile => p.1 == k) ∘ (fun f => (dedupKey f, f))) =
        (fun f => dedupKey f == k) := rfl
  rw [hcomp, List.getLast?_map]
  cases (l.filter (fun f => dedupKey f == k)).getLast? <;> simp

/-! Walker lemmas (claims C7 and C8). -/

/-- Effect of the inner edge loop: it appends some list Δ of fresh node ids
to both queue and visited, appends the matching cross-repo hits to the
affected list, and afterwards every edge of the batch has its source
visited. -/
theorem stepEdge_foldl_spec (sourceRepoId changedNodeId : String) :
    ∀ (dep : List GraphEdge) (st : WalkState),
      ∃ Δ : List String,
        dep.foldl (stepEdge sourceRepoId changedNodeId) st =
          { queue := st.queue ++ Δ
            visited := st.visited ++ Δ
            affected := st.affected ++
              (Δ.filter (hitPred sourceRepoId)).map (walkerHit changedNodeId) } ∧
        Δ.Nodup ∧
        (∀ x ∈ Δ, x ∉ st.visited ∧ ∃ e ∈ dep, e.source = x) ∧
        (∀ e ∈ dep, e.source ∈ st.visited ++ Δ) := by
  intro dep
  induction dep with
  | nil =>
      intro st
      exact ⟨[], by simp, List.nodup_nil, by simp, by simp⟩
  | cons e rest ih =>
      intro st
      rw [List.foldl_cons]
      cases hc : st.visited.contains e.source with
      | true =>
          have hmem : e.source ∈ st.visited := by simpa using hc
          have hstep : stepEdge sourceRepoId changedNodeId st e = st := by
            unfold stepEdge
            rw [if_pos hc]
          rw [hstep]
          rcases ih st with ⟨Δ, heq, hnd, hprop, hsrc⟩
          refine ⟨Δ, heq, hnd, ?_, ?_⟩
          · intro x hx
            rcases hprop x hx with ⟨hnv, e', he', hs⟩
            exact ⟨hnv, e', List.mem_cons_of_mem _ he', hs⟩
          · intro e' he'
            rcases List.mem_cons.mp he' with h | h
            · subst h
              exact List.mem_append_left _ hmem
            · exact hsrc e' h
      | false =>
          have hnmem : e.source ∉ st.visited := by simpa using hc
          have hstep : stepEdge sourceRepoId changedNodeId st e =
              { queue := st.queue ++ [e.source]
                visited := st.visited ++ [e.source]
                affected :=
                  if hitPred sourceRepoId e.source then
                    st.affected ++ [walkerHit changedNodeId e.source]
                  else st.affected } := by
            unfold stepEdge
            rw [if_neg (fun h => Bool.false_ne_true (hc ▸ h))]
          rw [hstep]
          rcases ih { queue := st.queue ++ [e.source]
                      visited := st.visited ++ [e.source]
                      affected :=
                        if hitPred sourceRepoId e.source then
                          st.affected ++ [walkerHit changedNodeId e.source]
                        else st.affected } with ⟨Δ2, heq, hnd, hprop, hsrc⟩
          have hnotin : e.source ∉ Δ2 := by
            intro hx
            have := (hprop e.source hx).1
            exact this (List.mem_append_right _ (List.mem_singleton.mpr rfl))
          refine ⟨e.source :: Δ2, ?_, ?_, ?_, ?_⟩
          · rw [heq]
            have hq : st.queue ++ [e.source] ++ Δ2 = st.queue ++ (e.source :: Δ2) := by
              simp
            have hv : st.visited ++ [e.source] ++ Δ2 =
                st.visited ++ (e.source :: Δ2) := by
              simp
            have ha :
                (if hitPred sourceRepoId e.source then
                    st.affected ++ [walkerHit changedNodeId e.source]
                  else st.affected) ++
                  (Δ2.filter (hitPred sourceRepoId)).map (walkerHit changedNodeId) =
                st.affected ++
                  (((e.source :: Δ2).filter (hitPred sourceRepoId)).map
                    (walkerHit changedNodeId)) := by
              rw [List.filter_cons]
              cases hh : hitPred sourceRepoId e.source with
              | true => simp [hh]
              | false => simp [hh]
            simp only [hq, hv, ha]
          · exact List.Nodup.cons hnotin hnd
          · intro x hx
            rcases List.mem_cons.mp hx with h | h
            · subst h
              exact ⟨hnmem, e, List.mem_cons_self _ _, rfl⟩
            · rcases hprop x h with ⟨hnv, e', he', hs⟩
              refine ⟨fun hmem => hnv (List.mem_append_left _ hmem),
                e', List.mem_cons_of_mem _ he', hs⟩
          · intro e' he'
            rcases List.mem_cons.mp he' with h | h
            · subst h
              exact List.mem_append_right _ (List.mem_cons_self _ _)
            · have := hsrc e' h
              rcases List.mem_append.mp this with h2 | h2
              · rcases List.mem_append.mp h2 with h3 | h3
                · exact List.mem_append_left _ h3
                · exact List.mem_append_right _
                    (List.mem_cons.mpr (Or.inl (List.mem_singleton.mp h3)))
              · exact List.mem_append_right _ (List.mem_cons_of_mem _ h2)

/-- Appending a nodup batch of fresh edge sources to the visited list
decreases the unvisited count by exactly the batch length. -/
theorem unvisitedCount_append (edges : List GraphEdge) (v Δ : List String)
    (hnd : Δ.Nodup)
    (hfresh : ∀ x ∈ Δ, x ∉ v ∧ x ∈ edges.map (fun e => e.source)) :
    Δ.length ≤ unvisitedCount edges v ∧
      unvisitedCount edges (v ++ Δ) = unvisitedCount edges v - Δ.length := by
  have hsub : Δ.toFinset ⊆
      ((edges.map (fun e => e.source)).toFinset \ v.toFinset) := by
    intro x hx
    have hx2 := List.mem_toFinset.mp hx
    rcases hfresh x hx2 with ⟨hnv, hsrc⟩
    exact Finset.mem_sdiff.mpr
      ⟨List.mem_toFinset.mpr hsrc, fun hv => hnv (List.mem_toFinset.mp hv)⟩
  have hcard : Δ.toFinset.card = Δ.length := List.toFinset_card_of_nodup hnd
  constructor
  · calc Δ.length = Δ.toFinset.card := hcard.symm
      _ ≤ _ := Finset.card_le_card hsub
  · unfold unvisitedCount
    have hset :
        ((edges.map (fun e => e.source)).toFinset \ (v ++ Δ).toFinset) =
          (((edges.map (fun e => e.source)).toFinset \ v.toFinset) \ Δ.toFinset) := by
      ext x
      simp only [Finset.mem_sdiff, List.toFinset_append, Finset.mem_union]
      tauto
    rw [hset, Finset.card_sdiff hsub, hcard]

/-- Fuel at least the queue length plus the unvisited-source count makes the
walker loop run to completion. -/
theorem bfsLoop_terminates (edges : List GraphEdge)
    (sourceRepoId changedNodeId : String) :
    ∀ (fuel : Nat) (st : WalkState),
      st.queue.length + unvisitedCount edges st.visited ≤ fuel →
      (bfsLoop edges sourceRepoId changedNodeId fuel st).isSome = true := by
  intro fuel
  induction fuel with
  | zero =>
      intro st h
      have hq : st.queue = [] := by
        have := Nat.le_zero.mp h
        exact List.eq_nil_of_length_eq_zero (by omega)
      unfold bfsLoop
      rw [hq]
      simp
  | succ fuel ih =>
      intro st h
      unfold bfsLoop
      cases hq : st.queue with
      | nil => simp
      | cons cur rest =>
          dsimp only
          rcases stepEdge_foldl_spec sourceRepoId changedNodeId
              (edges.filter (fun e => e.target == cur && e.type == EdgeType.IMPORTS))
              { queue := rest, visited := st.visited, affected := st.affected }
            with ⟨Δ, heq, hnd, hprop, _⟩
          rw [heq]
          apply ih
          have hfresh : ∀ x ∈ Δ, x ∉ st.visited ∧
              x ∈ edges.map (fun e => e.source) := by
            intro x hx
            rcases hprop x hx with ⟨hnv, e', he', hs⟩
            refine ⟨hnv, ?_⟩
            have he2 := (List.mem_filter.mp he').1
            exact List.mem_map.mpr ⟨e', he2, hs⟩
          rcases unvisitedCount_append edges st.visited Δ hnd hfresh with ⟨hle, heqc⟩
          have hlen : st.queue.length = rest.length + 1 := by
            rw [hq]; simp
          simp only [List.length_append]
          omega

/-- At an empty queue the invariant yields the final characterization: the
visited list is exactly the set of nodes reachable along reverse IMPORTS
edges, without duplicates, and the affected list is its cross-repo image. -/
theorem walkInv_final (edges : List GraphEdge)
    (sourceRepoId changedNodeId : String) (st : WalkState)
    (hinv : walkInv edges sourceRepoId changedNodeId st)
    (hq : st.queue = []) :
    st.visited.Nodup ∧ changedNodeId ∈ st.visited ∧
      (∀ x, x ∈ st.visited ↔ reachesRev edges changedNodeId x) ∧
      st.affected = crossHits changedNodeId sourceRepoId st.visited := by
  obtain ⟨hnd, hchg, _, hsound, hclosed, haff⟩ := hinv
  refine ⟨hnd, hchg, ?_, haff⟩
  intro x
  constructor
  · exact hsound x
  · intro hreach
    induction hreach with
    | refl => exact hchg
    | tail _ hstep ihm =>
        exact hclosed _ ihm (by rw [hq]; exact List.not_mem_nil _) _ hstep

/-- The walker loop preserves the invariant and, when it completes, returns
a visited list that is exactly the reachable set, visited once each, with
the matching cross-repo hit list. -/
theorem bfsLoop_spec (edges : List GraphEdge)
    (sourceRepoId changedNodeId : String) :
    ∀ (fuel : Nat) (st : WalkState),
      walkInv edges sourceRepoId changedNodeId st →
      ∀ (v : List String) (a : List AffectedFile),
        bfsLoop edges sourceRepoId changedNodeId fuel st = some (v, a) →
        v.Nodup ∧ changedNodeId ∈ v ∧
          (∀ x, x ∈ v ↔ reachesRev edges changedNodeId x) ∧
          a = crossHits changedNodeId sourceRepoId v := by
  intro fuel
  induction fuel with
  | zero =>
      intro st hinv v a hrun
      unfold bfsLoop at hrun
      cases hq : st.queue.isEmpty with
      | false => rw [if_neg (fun h => Bool.false_ne_true (hq ▸ h))] at hrun; cases hrun
      | true =>
          rw [if_pos hq] at hrun
          obtain ⟨hv, ha⟩ : st.visited = v ∧ st.affected = a := by
            cases hrun; exact ⟨rfl, rfl⟩
          subst hv; subst ha
          exact walkInv_final edges sourceRepoId changedNodeId st hinv
            (List.isEmpty_iff.mp hq)
  | succ fuel ih =>
      intro st hinv v a hrun
      unfold bfsLoop at hrun
      cases hq : st.queue with
      | nil =>
          rw [hq] at hrun
          dsimp only at hrun
          obtain ⟨hv, ha⟩ : st.visited = v ∧ st.affected = a := by
            cases hrun; exact ⟨rfl, rfl⟩
          subst hv; subst ha
          exact walkInv_final edges sourceRepoId changedNodeId st hinv hq
      | cons cur rest =>
          rw [hq] at hrun
          dsimp only at hrun
          rcases stepEdge_foldl_spec sourceRepoId changedNodeId
              (edges.filter (fun e => e.target == cur && e.type == EdgeType.IMPORTS))
              { queue := rest, visited := st.visited, affected := st.affected }
            with ⟨Δ, heq, hndD, hprop, hsrcdone⟩
          rw [heq] at hrun
          obtain ⟨hnd, hchg, hqv, hsound, hclosed, haff⟩ := hinv
          have hcur : cur ∈ st.visited := hqv cur (by rw [hq]; exact List.mem_cons_self _ _)
          have hfreshv : ∀ x ∈ Δ, x ∉ st.visited := fun x hx => (hprop x hx).1
          have hstepΔ : ∀ x ∈ Δ, revStep edges cur x := by
            intro x hx
            rcases (hprop x hx).2 with ⟨e, he, hs⟩
            have he2 := List.mem_filter.mp he
            have hcond := he2.2
            simp only [Bool.and_eq_true, beq_iff_eq] at hcond
            exact ⟨e, he2.1, hcond.2, hcond.1, hs⟩
          refine ih _ ?_ v a hrun
          refine ⟨?_, ?_, ?_, ?_, ?_, ?_⟩
          · exact hnd.append hndD (fun x hxv hxΔ => hfreshv x hxΔ hxv)
          · exact List.mem_append_left _ hchg
          · intro x hx
            rcases List.mem_append.mp hx with h | h
            · exact List.mem_append_left _
                (hqv x (by rw [hq]; exact List.mem_cons_of_mem _ h))
            · exact List.mem_append_right _ h
          · intro x hx
            rcases List.mem_append.mp hx with h | h
            · exact hsound x h
            · exact Relation.ReflTransGen.tail (hsound cur hcur) (hstepΔ x h)
          · intro x hx hxq y hstep
            rcases List.mem_append.mp hx with h | h
            · by_cases hxc : x = cur
              · subst hxc
                rcases hstep with ⟨e, he, htype, htgt, hsrc⟩
                have hedep : e ∈ edges.filter
                    (fun e => e.target == x && e.type == EdgeType.IMPORTS) := by
                  refine List.mem_filter.mpr ⟨he, ?_⟩
                  simp [htgt, htype]
                have := hsrcdone e hedep
                rw [hsrc] at this
                exact this
              · have hxnq : x ∉ st.queue := by
                  rw [hq]
                  intro hmem
                  rcases List.mem_cons.mp hmem with h2 | h2
                  · exact hxc h2
                  · exact hxq (List.mem_append_left _ h2)
                exact List.mem_append_left _ (hclosed x h hxnq y hstep)
            · exact absurd (List.mem_append_right rest h) hxq
          · rw [haff]
            unfold crossHits
            rw [List.filter_append, List.map_append]
            have hfiltΔ :
                Δ.filter (fun x => !(x == changedNodeId) && hitPred sourceRepoId x) =
                  Δ.filter (hitPred sourceRepoId) := by
              apply List.filter_congr
              intro x hx
              have hne : x ≠ changedNodeId := fun h => hfreshv x hx (h ▸ hchg)
              simp [hne]
            rw [hfiltΔ]

/-- Characterization of a complete walker run: the chosen fuel always
suffices, the visited list is the reachable set without duplicates, and the
affected list is its cross-repo image in visiting order. -/
theorem bfsRun_spec (g : GraphData) (changedNodeId sourceRepoId : String) :
    ∃ (v : List String) (a : List AffectedFile),
      bfsRun g changedNodeId sourceRepoId = some (v, a) ∧
      v.Nodup ∧ changedNodeId ∈ v ∧
      (∀ x, x ∈ v ↔ reachesRev g.edges changedNodeId x) ∧
      a = crossHits changedNodeId sourceRepoId v ∧
      findAffectedFiles g changedNodeId sourceRepoId = a := by
  have hterm :
      (bfsLoop g.edges sourceRepoId changedNodeId (g.edges.length + 1)
        { queue := [changedNodeId], visited := [changedNodeId],
          affected := [] }).isSome = true := by
    apply bfsLoop_terminates
    have h1 : unvisitedCount g.edges [changedNodeId] ≤ g.edges.length := by
      unfold unvisitedCount
      calc ((g.edges.map (fun e => e.source)).toFinset \
              ([changedNodeId] : List String).toFinset).card
          ≤ (g.edges.map (fun e => e.source)).toFinset.card :=
            Finset.card_le_card (Finset.sdiff_subset)
        _ ≤ (g.edges.map (fun e => e.source)).length := List.toFinset_card_le _
        _ = g.edges.length := List.length_map _ _
    simp only [List.length_singleton]
    omega
  rcases Option.isSome_iff_exists.mp hterm with ⟨res, hres⟩
  rcases res with ⟨v, a⟩
  have hinv0 : walkInv g.edges sourceRepoId changedNodeId
      { queue := [changedNodeId], visited := [changedNodeId], affected := [] } := by
    refine ⟨List.nodup_singleton _, List.mem_singleton.mpr rfl, ?_, ?_, ?_, ?_⟩
    · intro x hx; exact hx
    · intro x hx
      rw [List.mem_singleton.mp hx]
      exact Relation.ReflTransGen.refl
    · intro x hx hxq
      exact absurd hx hxq
    · unfold crossHits
      simp
  have hrun : bfsRun g changedNodeId sourceRepoId = some (v, a) := hres
  rcases bfsLoop_spec g.edges sourceRepoId changedNodeId (g.edges.length + 1)
      _ hinv0 v a hres with ⟨hnd, hchg, hiff, haff⟩
  refine ⟨v, a, hrun, hnd, hchg, hiff, haff, ?_⟩
  unfold findAffectedFiles
  rw [hrun]

/-- Claim C7: on every finite graph, cyclic or not, the walker run
completes with its allotted fuel (the while loop terminates), the visited
list is seeded with the start node, has no duplicates (each node is visited
at most once), and contains exactly the nodes reachable from the changed
node along reverse IMPORTS edges. -/
theorem claim_C7 :
    ∀ (g : GraphData) (changedNodeId sourceRepoId : String),
      ∃ (v : List String) (affected : List AffectedFile),
        bfsRun g changedNodeId sourceRepoId = some (v, affected) ∧
        v.Nodup ∧
        changedNodeId ∈ v ∧
        (∀ x, x ∈ v ↔ reachesRev g.edges changedNodeId x) ∧
        findAffectedFiles g changedNodeId sourceRepoId = affected := by
  intro g changedNodeId sourceRepoId
  rcases bfsRun_spec g changedNodeId sourceRepoId with
    ⟨v, a, hrun, hnd, hchg, hiff, _, hfind⟩
  exact ⟨v, a, hrun, hnd, hchg, hiff, hfind⟩

/-- Claim C8: the walker never reports a hit whose repoId equals the source
repoId, yet every node reachable along reverse IMPORTS edges — including
through same-repository intermediates — whose repo segment differs from the
source repo is reported. -/
theorem claim_C8 :
    ∀ (g : GraphData) (changedNodeId sourceRepoId : String),
      (∀ h ∈ findAffectedFiles g changedNodeId sourceRepoId,
        h.repoId ≠ sourceRepoId) ∧
      (∀ x, reachesRev g.edges changedNodeId x → x ≠ changedNodeId →
        (splitNodeId x).1 ≠ sourceRepoId →
        walkerHit changedNodeId x ∈ findAffectedFiles g changedNodeId sourceRepoId) := by
  intro g changedNodeId sourceRepoId
  rcases bfsRun_spec g changedNodeId sourceRepoId with
    ⟨v, a, _, _, _, hiff, haff, hfind⟩
  rw [hfind, haff]
  constructor
  · intro h hmem
    unfold crossHits at hmem
    rcases List.mem_map.mp hmem with ⟨x, hxf, hxe⟩
    have hcond := (List.mem_filter.mp hxf).2
    simp only [Bool.and_eq_true, Bool.not_eq_true'] at hcond
    have hrepo : (splitNodeId x).1 ≠ sourceRepoId := by
      have := hcond.2
      unfold hitPred at this
      simpa using this
    rw [← hxe]
    unfold walkerHit
    simpa using hrepo
  · intro x hreach hne hrepo
    unfold crossHits
    refine List.mem_map.mpr ⟨x, ?_, rfl⟩
    refine List.mem_filter.mpr ⟨(hiff x).mpr hreach, ?_⟩
    have h1 : (x == changedNodeId) = false := beq_eq_false_iff_ne.mpr hne
    have h2 : hitPred sourceRepoId x = true := by
      unfold hitPred
      simpa using hrepo
    rw [h1, h2]
    rfl

/-- Claim C8, witness: in a graph where B:client.ts imports A:mid.ts which
imports the changed A:src/api.ts, the cross-repo node reachable only
through the same-repo intermediate is reported. -/
theorem claim_C8_witness :
    walkerHit "A:src/api.ts" "B:client.ts" ∈
      findAffectedFiles fixGraphW "A:src/api.ts" "A" := by
  have hstep1 : revStep fixGraphW.edges "A:src/api.ts" "A:mid.ts" :=
    ⟨{ source := "A:mid.ts", target := "A:src/api.ts", type := .IMPORTS },
      by decide, rfl, rfl, rfl⟩
  have hstep2 : revStep fixGraphW.edges "A:mid.ts" "B:client.ts" :=
    ⟨{ source := "B:client.ts", target := "A:mid.ts", type := .IMPORTS },
      by decide, rfl, rfl, rfl⟩
  have hreach : reachesRev fixGraphW.edges "A:src/api.ts" "B:client.ts" :=
    Relation.ReflTransGen.tail
      (Relation.ReflTransGen.tail Relation.ReflTransGen.refl hstep1) hstep2
  exact (claim_C8 fixGraphW "A:src/api.ts" "A").2 "B:client.ts" hreach
    (by decide) (by decide)

/-! Scanner lemmas (claim C9). -/

/-- dedupByNormId depends on `seen` only through membership. -/
theorem dedupByNormId_congr :
    ∀ (files : List GraphNode) (s1 s2 : List String),
      (∀ k, s1.contains k = s2.contains k) →
      dedupByNormId files s1 = dedupByNormId files s2 := by
  intro files
  induction files with
  | nil => intro s1 s2 _; rfl
  | cons n rest ih =>
      intro s1 s2 h
      unfold dedupByNormId
      dsimp only
      rw [h (jsToLower (jsReplaceChar '\\' '/' n.id))]
      by_cases hc : s2.contains (jsToLower (jsReplaceChar '\\' '/' n.id)) = true
      · rw [if_pos hc, if_pos hc]
        exact ih s1 s2 h
      · rw [if_neg hc, if_neg hc]
        have h2 : ∀ k,
            ((jsToLower (jsReplaceChar '\\' '/' n.id)) :: s1).contains k =
              ((jsToLower (jsReplaceChar '\\' '/' n.id)) :: s2).contains k := by
          intro k
          simp only [List.contains_cons]
          rw [h k]
        rw [ih _ _ h2]

/-- The ghost scanned list of the scanner loop is the first-per-normalized-id
dedup of the remaining candidate list. -/
theorem scanLoop_scanned (functionList : List String)
    (fsys : String → Option String) :
    ∀ (files : List GraphNode) (processed : List String)
      (acc : List AffectedFile) (scanned : List GraphNode),
      (scanLoop functionList fsys files processed acc scanned).2 =
        scanned ++ dedupByNormId files processed := by
  intro files
  induction files with
  | nil => intro processed acc scanned; simp [scanLoop, dedupByNormId]
  | cons file rest ih =>
      intro processed acc scanned
      unfold scanLoop dedupByNormId
      dsimp only
      by_cases hc :
          processed.contains (jsToLower (jsReplaceChar '\\' '/' file.id)) = true
      · rw [if_pos hc, if_pos hc]
        exact ih processed acc scanned
      · rw [if_neg hc, if_neg hc]
        have hseen : ∀ k,
            (processed ++ [jsToLower (jsReplaceChar '\\' '/' file.id)]).contains k =
              ((jsToLower (jsReplaceChar '\\' '/' file.id)) :: processed).contains k := by
          intro k
          rw [Bool.eq_iff_iff]
          have h1 : (processed ++ [jsToLower (jsReplaceChar '\\' '/' file.id)]).contains k = true ↔
              (k ∈ processed ∨ k = jsToLower (jsReplaceChar '\\' '/' file.id)) := by simp
          have h2 : ((jsToLower (jsReplaceChar '\\' '/' file.id)) :: processed).contains k = true ↔
              (k = jsToLower (jsReplaceChar '\\' '/' file.id) ∨ k ∈ processed) := by simp
          rw [h1, h2]
          tauto
        have hded :
            dedupByNormId rest
                (processed ++ [jsToLower (jsReplaceChar '\\' '/' file.id)]) =
              dedupByNormId rest
                ((jsToLower (jsReplaceChar '\\' '/' file.id)) :: processed) :=
          dedupByNormId_congr rest _ _ hseen
        cases hfs : fsys (diskPath (splitNodeId file.id).1 (splitNodeId file.id).2) with
        | none =>
            rw [ih _ _ _, hded]
            simp
        | some content =>
            rw [ih _ _ _, hded]
            simp

/-- Every node the dedup keeps comes from the input list. -/
theorem dedupByNormId_subset :
    ∀ (files : List GraphNode) (seen : List String),
      ∀ n ∈ dedupByNormId files seen, n ∈ files := by
  intro files
  induction files with
  | nil => intro seen n hn; cases hn
  | cons f rest ih =>
      intro seen n hn
      unfold dedupByNormId at hn
      by_cases hc : seen.contains (jsToLower (jsReplaceChar '\\' '/' f.id)) = true
      · rw [if_pos hc] at hn
        exact List.mem_cons_of_mem _ (ih seen n hn)
      · rw [if_neg hc] at hn
        rcases List.mem_cons.mp hn with h | h
        · exact h ▸ List.mem_cons_self _ _
        · exact List.mem_cons_of_mem _ (ih _ n h)

/-- Claim C9, counterexample. Two candidate nodes that differ only in the
path separator share a normalized id; both are FILE nodes of another
repository with a source extension and both sit within the first 500
candidates, yet only the first reaches the disk-access step — the second is
skipped, so not every such node within the first 500 is scanned. -/
theorem claim_C9_counterexample :
    ({ id := "B:a/x.ts", type := .FILE, label := "", metadata := none } : GraphNode) ∈
      (otherRepoFiles fixGraph9 "A").take 500 ∧
    ({ id := "B:a/x.ts", type := .FILE, label := "", metadata := none } : GraphNode) ∉
      (searchScan fixGraph9 "A" ["getUser"] fixFs).2 ∧
    (searchScan fixGraph9 "A" ["getUser"] fixFs).2 =
      [{ id := "B:a\\x.ts", type := .FILE, label := "", metadata := none }] := by
  exact ⟨by decide, by decide, by decide⟩

/-- Claim C9, amended: the candidate set is the FILE-kind nodes whose id
does not start with the source repoId and matches a source-code extension,
capped at 500 in graph order; when the identifier list survives filtering,
the nodes that reach the disk-access step are exactly the first node per
normalized id (lower-cased, slash-normalized) among those candidates —
later normalized duplicates are skipped — and no node outside the capped
candidate set is ever processed. -/
theorem claim_C9 :
    ∀ (g : GraphData) (sourceRepoId : String) (changedFunctions : List String)
      (fsys : String → Option String),
      (∀ n ∈ (searchScan g sourceRepoId changedFunctions fsys).2,
        n ∈ (otherRepoFiles g sourceRepoId).take 500 ∧
        n.type = NodeType.FILE ∧
        jsStartsWith n.id sourceRepoId = false ∧
        sourceExtMatch n.id = true) ∧
      (functionListOf changedFunctions ≠ [] →
        (searchScan g sourceRepoId changedFunctions fsys).2 =
          dedupByNormId ((otherRepoFiles g sourceRepoId).take 500) []) := by
  intro g sourceRepoId changedFunctions fsys
  constructor
  · intro n hn
    unfold searchScan at hn
    by_cases hz : ((functionListOf changedFunctions).length == 0) = true
    · rw [if_pos hz] at hn
      cases hn
    · rw [if_neg hz] at hn
      rw [scanLoop_scanned] at hn
      simp only [List.nil_append] at hn
      have htake := dedupByNormId_subset _ _ n hn
      refine ⟨htake, ?_⟩
      have hmemall : n ∈ otherRepoFiles g sourceRepoId :=
        List.mem_of_mem_take htake
      have hcond := (List.mem_filter.mp hmemall).2
      simp only [Bool.and_eq_true, beq_iff_eq, Bool.not_eq_true'] at hcond
      exact ⟨hcond.1.1, hcond.1.2, hcond.2⟩
  · intro hne
    unfold searchScan
    have hz : ((functionListOf changedFunctions).length == 0) = false := by
      simp only [beq_eq_false_iff_ne, ne_eq, List.length_eq_zero]
      exact hne
    rw [if_neg (fun h => Bool.false_ne_true (hz ▸ h))]
    rw [scanLoop_scanned]
    simp

/-- Claim C9, witness: a concrete scan where the identifier list is
nonempty, showing the scanned nodes match the dedup of the capped candidate
list, and that a scanned node satisfies the candidate description. -/
theorem claim_C9_witness :
    (searchScan fixGraph9 "A" ["getUser"] fixFs).2 =
      dedupByNormId ((otherRepoFiles fixGraph9 "A").take 500) [] ∧
    ({ id := "B:a\\x.ts", type := .FILE, label := "", metadata := none } :
        GraphNode).type = NodeType.FILE := by
  refine ⟨(claim_C9 fixGraph9 "A" ["getUser"] fixFs).2 (by decide), ?_⟩
  exact ((claim_C9 fixGraph9 "A" ["getUser"] fixFs).1
    { id := "B:a\\x.ts", type := .FILE, label := "", metadata := none }
    (by decide)).2.1

end Syncrup
